import Mathlib

/-!
# Verification of `HDXer/reweighting.py` (class `MaxEnt`)

A shallow embedding of the numeric core of the maximum-entropy reweighting
code, over real arithmetic.  Arrays indexed by residues (`Fin R`), trajectory
frames (`Fin N`), experimental segments (`Fin S`) and exchange times (`Fin T`)
are modelled as functions; IEEE NaN values produced by masked `np.divide` /
`np.nanmean` are modelled as `Option ℝ` with `none` playing the role of NaN
(propagated by ordinary sums, skipped by the nan-aware reductions).
Python name resolution, which decides two of the observed behaviours, is
modelled by lookup through a chain of scopes of bound identifiers.
-/

namespace HDXer

noncomputable section

open Real Finset

/-! ## Ensemble state and the forward model (`update_lnpi_and_weights`) -/

/-- The mutable state carried in `MaxEnt.methodparams` / `MaxEnt.runvalues` /
`MaxEnt.mcsamplvalues` that `update_lnpi_and_weights` reads and writes,
for `R` residues and `N` frames. -/
structure MEState (R N : ℕ) where
  contacts : Fin R → Fin N → ℝ
  hbonds : Fin R → Fin N → ℝ
  lambdas : Fin R → ℝ
  lambdas_c : Fin R → ℝ
  lambdas_h : Fin R → ℝ
  iniweights : Fin N → ℝ
  radou_bc : ℝ
  radou_bh : ℝ
  do_mcsampl : Bool
  curriter : ℕ
  lnpi : Fin R → Fin N → ℝ
  currweights : Fin N → ℝ
  ave_lnpi : Fin R → ℝ
  sigma_lnpi : Option (Fin R → ℝ)
  ave_sigma_lnpi : Option ℝ

variable {R N : ℕ}

/-- Computes `lnpi = radou_bc * contacts + radou_bh * hbonds`, elementwise. -/
def lnpi_of (st : MEState R N) : Fin R → Fin N → ℝ :=
  fun r n => st.radou_bc * st.contacts r n + st.radou_bh * st.hbonds r n

/-- The per-frame bias factor: in MC-sampling mode the two channel lambdas act
on contacts and hbonds separately, otherwise the lambdas act on `lnpi`. -/
def biasfactor (st : MEState R N) : Fin N → ℝ :=
  fun n =>
    if st.do_mcsampl then
      ∑ r, (st.lambdas_c r * st.contacts r n + st.lambdas_h r * st.hbonds r n)
    else
      ∑ r, st.lambdas r * lnpi_of st r n

/-- Computes `currweights = iniweights * exp(biasfactor)`, normalised by its sum. -/
def currweights_of (st : MEState R N) : Fin N → ℝ :=
  fun n =>
    st.iniweights n * Real.exp (biasfactor st n) /
      ∑ m, st.iniweights m * Real.exp (biasfactor st m)

/-- Weighted-average protection factor per residue. -/
def ave_lnpi_of (st : MEState R N) : Fin R → ℝ :=
  fun r => ∑ n, currweights_of st n * lnpi_of st r n

/-- The unconditional part of `update_lnpi_and_weights`: recompute `lnpi`,
`currweights` and `ave_lnpi` from the current lambdas and coefficients. -/
def forward_update (st : MEState R N) : MEState R N :=
  { st with
    lnpi := lnpi_of st
    currweights := currweights_of st
    ave_lnpi := ave_lnpi_of st }

/-- Weighted standard deviation of `lnpi` per residue, from a state whose
`currweights`, `lnpi` and `ave_lnpi` entries are current. -/
def sigma_of (st : MEState R N) : Fin R → ℝ :=
  fun r => Real.sqrt ((∑ n, st.currweights n * st.lnpi r n ^ 2) - st.ave_lnpi r ^ 2)

/-- Embeds `MaxEnt.update_lnpi_and_weights`: the forward update, recording the
standard deviation of `lnpi` (and its mean) exactly when `curriter = 1`. -/
def update_lnpi_and_weights (st : MEState R N) : MEState R N :=
  let st1 := forward_update st
  if st.curriter = 1 then
    { st1 with
      sigma_lnpi := some (sigma_of st1)
      ave_sigma_lnpi := some ((∑ r, sigma_of st1 r) / R) }
  else st1

/-- A state as assembled by `setup_no_runobj` for a fresh (non-restart) run:
iteration counter `0`, no standard deviation recorded yet, channel lambdas
zero, MC-sampling off, and the given loaded arrays and coefficients. -/
def initState (contacts hbonds : Fin R → Fin N → ℝ) (lambdas : Fin R → ℝ)
    (iniweights : Fin N → ℝ) (bc bh : ℝ) : MEState R N :=
  { contacts := contacts
    hbonds := hbonds
    lambdas := lambdas
    lambdas_c := fun _ => 0
    lambdas_h := fun _ => 0
    iniweights := iniweights
    radou_bc := bc
    radou_bh := bh
    do_mcsampl := false
    curriter := 0
    lnpi := fun _ _ => 0
    currweights := fun _ => 0
    ave_lnpi := fun _ => 0
    sigma_lnpi := none
    ave_sigma_lnpi := none }

/-- Modelled from the spec: the body of the main reweighting loop is absent
from `run()` (the method only performs setup).  Following spec §4.2, each
iteration advances the iteration counter and then recomputes the forward
model; the counter advance precedes the recomputation, so that the
standard-deviation recording guarded by `curriter = 1` fires on the very
first iteration after a fresh setup, as spec §4.1 states. -/
def loop_iteration (st : MEState R N) : MEState R N :=
  update_lnpi_and_weights { st with curriter := st.curriter + 1 }

/-- The worked example of spec §8: contacts `[[1,2],[3,4]]` over 2 residues
and 2 frames, no hydrogen bonds, `Bc = 0.35`, `Bh = 2.0`, zero lambdas and
unit initial weights. -/
def exampleState : MEState 2 2 :=
  initState ![![1, 2], ![3, 4]] (fun _ _ => 0) (fun _ => 0) ![1, 1] 0.35 2

/-! ## Deuterated fractions and mean square error (`update_dfracs_and_mse`)

Arrays of shape `[n_segs, n_residues, n_times]` are functions
`Fin S → Fin R → Fin T → _`.  A NaN entry (produced by a masked `np.divide`
or an all-NaN `np.nanmean`) is `none`; an ordinary `np.sum` propagates NaN,
`np.nanmean` / `np.nansum` skip it. -/

variable {S T : ℕ}

/-- A boolean segment filter entry as the numeric factor it contributes. -/
def bfilter (b : Bool) : ℝ := if b then 1 else 0

/-- Computes `minuskt_filtered = -minuskt * segfilters` (set once in `setup_no_runobj`). -/
def minuskt_filtered (segf : Fin S → Fin R → Fin T → Bool)
    (minuskt : Fin S → Fin R → Fin T → ℝ) : Fin S → Fin R → Fin T → ℝ :=
  fun s r t => -minuskt s r t * bfilter (segf s r t)

/-- Computes `exp_dfrac_filtered = exp_dfrac * segfilters` (set once in `setup_no_runobj`). -/
def exp_dfrac_filtered (segf : Fin S → Fin R → Fin T → Bool)
    (exp_dfrac : Fin S → Fin R → Fin T → ℝ) : Fin S → Fin R → Fin T → ℝ :=
  fun s r t => exp_dfrac s r t * bfilter (segf s r t)

/-- Computes `denom = ave_lnpi * segfilters`, the masked denominator term. -/
def denom3 (segf : Fin S → Fin R → Fin T → Bool)
    (ave_lnpi : Fin S → Fin R → Fin T → ℝ) : Fin S → Fin R → Fin T → ℝ :=
  fun s r t => ave_lnpi s r t * bfilter (segf s r t)

/-- Computes `curr_residue_dfracs = 1 - exp(np.divide(minuskt_filtered, exp(denom),
out=nan, where=denom != 0))`: NaN (`none`) wherever `denom = 0`, the computed
fraction elsewhere. -/
def residue_dfracs (segf : Fin S → Fin R → Fin T → Bool)
    (ave_lnpi : Fin S → Fin R → Fin T → ℝ) (mktf : Fin S → Fin R → Fin T → ℝ) :
    Fin S → Fin R → Fin T → Option ℝ :=
  fun s r t =>
    if denom3 segf ave_lnpi s r t = 0 then none
    else some (1 - Real.exp (mktf s r t / Real.exp (denom3 segf ave_lnpi s r t)))

/-- Models `np.nanmean` over the residue axis: mean of the non-NaN entries, NaN when
every entry is NaN. -/
def nanmean_res (d : Fin S → Fin R → Fin T → Option ℝ) (s : Fin S) (t : Fin T) :
    Option ℝ :=
  let vals := (List.finRange R).filterMap fun r => d s r t
  if vals.length = 0 then none else some (vals.sum / vals.length)

/-- Models `np.sum` over a list of possibly-NaN values: NaN propagates. -/
def osum (l : List (Option ℝ)) : Option ℝ :=
  l.foldr (fun a b => a.bind fun x => b.map fun y => x + y) (some 0)

/-- The addends of `curr_MSE`:
`(curr_segment_dfracs * segfilters - exp_dfrac_filtered)^2` over all
`(segment, residue, time)` cells, with the segment fraction broadcast over
residues.  `segd` is the per-(segment, time) mean, `expdf` the pre-filtered
experimental array. -/
def mse_terms (segf : Fin S → Fin R → Fin T → Bool) (segd : Fin S → Fin T → Option ℝ)
    (expdf : Fin S → Fin R → Fin T → ℝ) : List (Option ℝ) :=
  (List.finRange S).flatMap fun s =>
    (List.finRange R).flatMap fun r =>
      (List.finRange T).map fun t =>
        (segd s t).map fun m => (m * bfilter (segf s r t) - expdf s r t) ^ 2

/-- Computes `n_datapoints = np.sum(segfilters)`: the number of `true` filter entries. -/
def n_datapoints (segf : Fin S → Fin R → Fin T → Bool) : ℕ :=
  ∑ s, ∑ r, ∑ t, if segf s r t then 1 else 0

/-- The MSE computed by `update_dfracs_and_mse` from the already-filtered
arrays: sum of all squared cell deviations divided by `n_datapoints`. -/
def curr_MSE (segf : Fin S → Fin R → Fin T → Bool)
    (ave_lnpi mktf expdf : Fin S → Fin R → Fin T → ℝ) : Option ℝ :=
  (osum (mse_terms segf (nanmean_res (residue_dfracs segf ave_lnpi mktf)) expdf)).map
    fun x => x / (n_datapoints segf : ℝ)

/-- Embeds `MaxEnt.update_dfracs_and_mse` as a function of the raw loaded arrays:
the filtered arrays are formed as in `setup_no_runobj` and fed to the MSE. -/
def update_dfracs_mse (segf : Fin S → Fin R → Fin T → Bool)
    (ave_lnpi minuskt exp_dfrac : Fin S → Fin R → Fin T → ℝ) : Option ℝ :=
  curr_MSE segf ave_lnpi (minuskt_filtered segf minuskt)
    (exp_dfrac_filtered segf exp_dfrac)

/-- Follows the specification wording (for comparison with `curr_MSE`): the
sum of squared filtered deviations — predicted segment fraction minus
experimental fraction, over the cells whose filter is set — divided by the
count of valid datapoints. -/
def spec_MSE (segf : Fin S → Fin R → Fin T → Bool)
    (ave_lnpi minuskt exp_dfrac : Fin S → Fin R → Fin T → ℝ) : ℝ :=
  (∑ s, ∑ r, ∑ t,
      if segf s r t then
        ((nanmean_res (residue_dfracs segf ave_lnpi (minuskt_filtered segf minuskt)) s
              t).getD 0 - exp_dfrac s r t) ^ 2
      else 0) / (n_datapoints segf : ℝ)

/-- The concrete filter array for a one-segment, one-residue, one-time
instance with its single filter entry set. -/
def witSegf : Fin 1 → Fin 1 → Fin 1 → Bool := fun _ _ _ => true

/-- Constant unit averaged protection factor on the same single cell. -/
def witAve : Fin 1 → Fin 1 → Fin 1 → ℝ := fun _ _ _ => 1

/-- Zero rate term on the same single cell. -/
def witMkt : Fin 1 → Fin 1 → Fin 1 → ℝ := fun _ _ _ => 0

/-- Zero experimental fractions on the same single cell. -/
def witExp : Fin 1 → Fin 1 → Fin 1 → ℝ := fun _ _ _ => 0

/-! ## Monte Carlo parameter sampling (`sample_parameters_MC`) -/

/-- The chi-square-style value entering the MC acceptance test:
`n_segs * n_times * MSE / (2 * mc_refvar)`. -/
def mc_acc_val (nsegs ntimes : ℕ) (mse refvar : ℝ) : ℝ :=
  nsegs * ntimes * mse / (2 * refvar)

/-- Computes `move_prob = exp(-(trial_acc_val - orig_acc_val))`. -/
def mc_move_prob (nsegs ntimes : ℕ) (trialMSE currMSE refvar : ℝ) : ℝ :=
  Real.exp (-(mc_acc_val nsegs ntimes trialMSE refvar -
    mc_acc_val nsegs ntimes currMSE refvar))

/-- The MC acceptance decision for a trial, given the uniform draw `u`:
immediate acceptance when the trial MSE strictly improves, otherwise
acceptance exactly when `move_prob > u`. -/
def mc_accept (nsegs ntimes : ℕ) (trialMSE currMSE refvar u : ℝ) : Prop :=
  if trialMSE < currMSE then True
  else u < mc_move_prob nsegs ntimes trialMSE currMSE refvar

/-- One candidate move in a beta parameter: the current value plus a uniform
increment `(u - 0.5) * param_stepfactor * range`. -/
def trial_beta (cur step range u : ℝ) : ℝ :=
  cur + (u - 0.5) * step * range

/-- The resampling loop of `generate_trial_betas`: draw candidate moves from
the stream `us` starting at index `i` until one is non-negative, returning
that value and the next unused index (`none` when `fuel` draws all fail). -/
def first_nonneg_trial (cur step range : ℝ) (us : ℕ → ℝ) :
    ℕ → ℕ → Option (ℝ × ℕ)
  | 0, _ => none
  | fuel + 1, i =>
    let v := trial_beta cur step range (us i)
    if 0 ≤ v then some (v, i + 1) else first_nonneg_trial cur step range us fuel (i + 1)

/-- Embeds `generate_trial_betas` exactly as written: it runs the two resampling
loops (first for `bh`, then for `bc`), binds their results to
`trial_radou_bh` / `trial_radou_bc`, and then executes `return bc, bh` —
the unperturbed inputs. -/
def generate_trial_betas (bc bh step bcrange bhrange : ℝ) (us : ℕ → ℝ)
    (fuel : ℕ) : Option (ℝ × ℝ) :=
  match first_nonneg_trial bh step bhrange us fuel 0 with
  | none => none
  | some (_, i) =>
    match first_nonneg_trial bc step bcrange us fuel i with
    | none => none
    | some _ => some (bc, bh)

/-- The equilibration smoothing rate:
`mc_equilsteps / sqrt(mc_equilsteps * (mc_equilsteps + curriter))` when
`mc_equilsteps > 0`, else `1.0`. -/
def mc_smoothing_rate (equilsteps : ℤ) (curriter : ℕ) : ℝ :=
  if 0 < equilsteps then
    equilsteps / Real.sqrt (equilsteps * (equilsteps + curriter))
  else 1.0

/-- Embeds `update_sampled_averages`: an accumulated total divided by `param_maxiters`. -/
def update_sampled_average (total : ℝ) (param_maxiters : ℕ) : ℝ :=
  total / param_maxiters

/-- The final persistent-coefficient update of `sample_parameters_MC`:
`old * (1 - smoothing_rate) + smoothing_rate * (ave / param_maxiters)`,
where `ave` is the value returned by `update_sampled_averages`. -/
def mc_final_coeff (old ave sr : ℝ) (param_maxiters : ℕ) : ℝ :=
  old * (1 - sr) + sr * (ave / param_maxiters)

/-- The persistent coefficient produced from an accumulated inner-loop sum:
the composition of `update_sampled_averages` with the final blend. -/
def mc_coeff_from_sums (old total sr : ℝ) (param_maxiters : ℕ) : ℝ :=
  mc_final_coeff old (update_sampled_average total param_maxiters) sr param_maxiters

/-- Follows the specification wording (for comparison with
`mc_coeff_from_sums`): the accumulated sum is divided by `param_maxiters`
exactly once, and the persistent coefficient becomes the convex blend
`old * (1 - sr) + sr * average`. -/
def spec_mc_coeff_from_sums (old total sr : ℝ) (param_maxiters : ℕ) : ℝ :=
  old * (1 - sr) + sr * update_sampled_average total param_maxiters

/-! ## Python name resolution

`setup_restart` assigns the unpickled state to module-level globals, and
`calc_lambdas_in_sampleloop` reads the bare name `segfilters`.  Whether those
reads succeed is a question of which identifiers are bound in the enclosing
scopes, modelled here as lists of bound names searched innermost-first. -/

/-- A Python exception relevant to the modelled paths. -/
inductive PyExc where
  | nameError
  | hdxError
deriving DecidableEq

/-- Resolution of a bare name through a chain of scopes (innermost first):
the name resolves iff some scope binds it. -/
def resolveName (n : String) (scopes : List (List String)) : Bool :=
  scopes.any fun sc => sc.contains n

/-- The names bound at module level of `reweighting.py` on a fresh import:
the imports and the class definition.  No module-level assignment binds
`segfilters`, `T`, `kT` or `tol`. -/
def pyModuleGlobalsFresh : List String :=
  ["np", "argparse", "os", "sys", "glob", "deepcopy", "pickle",
   "HDX_Error", "read_contacts_hbonds", "read_kints_segments", "MaxEnt"]

/-- The 28 names bound (as module globals, via the `global` statement) by the
unpickling assignment in `setup_restart`. -/
def restartPickleNames : List String :=
  ["contacts", "hbonds", "kint", "exp_dfrac", "segfilters", "lambdas",
   "lambdasc", "lambdash", "_lambdanewaverh", "_lambdanewaverc",
   "_lambdanew", "_lambdanewh", "_lambdanewc", "chisquareav",
   "nframes", "iniweights", "num", "exp_df_segf", "normseg", "numseg",
   "lambdamod", "deltalambdamod", "Bc", "Bh", "gamma", "ratef",
   "avesigmalnpi", "currcount"]

/-- The local names of `setup_restart` itself. -/
def setupRestartLocals : List String := ["rstfile", "f"]

/-- The names whose values the restart header line interpolates
(`% (T, kT, tol, Bc, Bh, gamma, ratef, nframes)`). -/
def restartFormatArgNames : List String :=
  ["T", "kT", "tol", "Bc", "Bh", "gamma", "ratef", "nframes"]

/-- Embeds `MaxEnt.setup_restart` at the level of bindings: the pickled tuple is
bound to module globals (never to `self.runvalues`), then the restart header
is written, which requires every interpolated name to resolve; if one fails
to resolve the method raises `NameError` before completing. -/
def setup_restart_py (globals : List String) : Except PyExc (List String) :=
  let g2 := globals ++ restartPickleNames
  if restartFormatArgNames.all (fun n => resolveName n [setupRestartLocals, g2]) then
    Except.ok g2
  else Except.error PyExc.nameError

/-! ## Run orchestration (`run`, `set_run_params`) -/

/-- The run parameters that `setup_no_runobj` requires; looking any of them
up in `self.runparams` when absent raises `KeyError`, which `run()` converts
into `HDX_Error`. -/
def requiredRunKeys : List String :=
  ["data_folders", "kint_file", "exp_file", "times"]

/-- The setup dispatch of `run()`: restart first, then run object, then the
fresh setup, which fails with `HDX_Error` when a mandatory key is missing
from the supplied run parameters. -/
def run_setup_dispatch (restart runobj : Option String)
    (provided : List String) : Except PyExc Unit :=
  match restart with
  | some _ => (setup_restart_py pyModuleGlobalsFresh).map fun _ => ()
  | none =>
    match runobj with
    | some _ => Except.ok ()
    | none =>
      if requiredRunKeys.all (fun k => provided.contains k) then Except.ok ()
      else Except.error PyExc.hdxError

/-- Modelled from the spec: the reweighting loop that should follow setup is
absent from `run()` (the method body ends after the setup dispatch), so the
loop is abstracted as `iters` applications of an arbitrary body after a
successful setup.  Setup failure prevents any iteration. -/
def run_model {α : Type} (restart runobj : Option String) (provided : List String)
    (loopBody : α → α) (iters : ℕ) (init : α) : Except PyExc α :=
  match run_setup_dispatch restart runobj provided with
  | Except.error e => Except.error e
  | Except.ok _ => Except.ok (loopBody^[iters] init)

/-! ## The sampling-loop lambda computation (`calc_lambdas_in_sampleloop`) -/

/-- The local names of `sample_parameters_MC` (helper functions and loop
variables) visible to its nested functions as enclosing scope. -/
def sampleMCLocals : List String :=
  ["self", "update_sampled_totals", "update_sampled_totals_nolambda",
   "update_sampled_averages", "update_sampled_averages_nolambda",
   "generate_trial_betas", "calc_trial_ave_lnpi", "calc_trial_dfracs",
   "calc_lambdas_in_sampleloop", "smoothing_rate", "_ave_contacts",
   "_ave_hbonds", "curr_radou_bh", "curr_radou_bc", "curr_mc_iter",
   "trial_radou_bc", "trial_radou_bh", "trial_ave_lnpi",
   "trial_residue_dfracs", "trial_segment_dfracs", "trial_MSE",
   "trial_acc_val", "orig_acc_val", "move_prob", "curr_lambdas",
   "add_to_totals", "radou_bc_sum", "radou_bh_sum", "MSE_sum",
   "residue_dfracs_sum", "lambdas_bc_sum", "lambdas_bh_sum",
   "radou_bc_ave", "radou_bh_ave", "MSE_ave", "residue_dfracs_ave",
   "_lambdanewh", "_lambdanewc", "_lambdanew", "ave_deviation"]

/-- The local names of `calc_lambdas_in_sampleloop` itself. -/
def calcLambdasLocals : List String :=
  ["ave_lnpi", "segment_dfracs", "denom", "curr_lambdas", "self"]

/-- The per-step channel-lambda value computed inside the sampling loop
(when the bare name `segfilters` resolves): for each residue, the nan-skipping
sum over segments of the time-summed sensitivity-weighted deviations, each
divided by the number of residues the segment filter admits at the first
time point. -/
def curr_lambdas_mc (segf : Fin S → Fin R → Fin (T + 1) → Bool)
    (ave_lnpi segd mktf expdf : Fin S → Fin R → Fin (T + 1) → ℝ) : Fin R → ℝ :=
  fun r => ∑ s,
    ((osum ((List.finRange (T + 1)).map fun t =>
        if denom3 segf ave_lnpi s r t = 0 then none
        else
          some ((segd s r t * bfilter (segf s r t) - expdf s r t) *
            Real.exp (mktf s r t / Real.exp (denom3 segf ave_lnpi s r t)) *
            (-mktf s r t / Real.exp (denom3 segf ave_lnpi s r t))))).map fun x =>
      x / ∑ r2, bfilter (segf s r2 0)).getD 0

/-- Embeds `calc_lambdas_in_sampleloop`: the final normalisation reads the bare
module-level name `segfilters`; when that name does not resolve through the
scope chain the call raises `NameError`, otherwise the value above is
returned. -/
def calc_lambdas_in_sampleloop (globals : List String)
    (segf : Fin S → Fin R → Fin (T + 1) → Bool)
    (ave_lnpi segd mktf expdf : Fin S → Fin R → Fin (T + 1) → ℝ) :
    Except PyExc (Fin R → ℝ) :=
  if resolveName ("segfilters") [calcLambdasLocals, sampleMCLocals, globals] then
    Except.ok (curr_lambdas_mc segf ave_lnpi segd mktf expdf)
  else Except.error PyExc.nameError

/-- The reweighting part of one inner MC sampling step (the accumulation
branch guarded by `do_reweight`): with reweighting enabled it invokes
`calc_lambdas_in_sampleloop`, otherwise no lambda value is computed. -/
def mc_inner_step_lambda_part (do_reweight : Bool) (globals : List String)
    (segf : Fin S → Fin R → Fin (T + 1) → Bool)
    (ave_lnpi segd mktf expdf : Fin S → Fin R → Fin (T + 1) → ℝ) :
    Except PyExc (Option (Fin R → ℝ)) :=
  if do_reweight then
    (calc_lambdas_in_sampleloop globals segf ave_lnpi segd mktf expdf).map some
  else Except.ok none

end

/-! ## Theorems -/

noncomputable section

open Real Finset

variable {R N S T : ℕ}

theorem update_currweights_eq (st : MEState R N) :
    (update_lnpi_and_weights st).currweights = currweights_of st := by
  unfold update_lnpi_and_weights forward_update
  split <;> rfl

theorem update_lnpi_eq (st : MEState R N) :
    (update_lnpi_and_weights st).lnpi = lnpi_of st := by
  unfold update_lnpi_and_weights forward_update
  split <;> rfl

/-- C1 (counterexample): with initial weights `[-1, 2]` and zero lambdas, the
weight update produces a strictly negative frame weight, so the output of
`update_lnpi_and_weights` is not elementwise non-negative for every
initial-weight vector. -/
theorem frameweights_nonneg_cex :
    (update_lnpi_and_weights (initState (R := 1) (N := 2) (fun _ _ => 0) (fun _ _ => 0)
        (fun _ => 0) ![-1, 2] 0.35 2)).currweights 0 < 0 := by
  rw [update_currweights_eq]
  simp only [currweights_of, biasfactor, initState, lnpi_of, Fin.sum_univ_one,
    Fin.sum_univ_two, Matrix.cons_val_zero, Matrix.cons_val_one, Matrix.head_cons]
  norm_num [Real.exp_zero]

/-- C1 (amended): whenever the initial weights are elementwise non-negative
with at least one positive entry — as holds for every vector `setup_no_runobj`
installs — the frame weights produced by `update_lnpi_and_weights` are
elementwise non-negative and sum to 1, for every lambda vector (and in both
bias modes). -/
theorem frameweights_nonneg_sum_one (st : MEState R N)
    (hnn : ∀ n, 0 ≤ st.iniweights n) (hpos : ∃ n, 0 < st.iniweights n) :
    (∀ n, 0 ≤ (update_lnpi_and_weights st).currweights n) ∧
      ∑ n, (update_lnpi_and_weights st).currweights n = 1 := by
  rw [update_currweights_eq]
  have hterm : ∀ n, 0 ≤ st.iniweights n * Real.exp (biasfactor st n) := fun n =>
    mul_nonneg (hnn n) (Real.exp_pos _).le
  have hsum : 0 < ∑ m, st.iniweights m * Real.exp (biasfactor st m) := by
    obtain ⟨n0, hn0⟩ := hpos
    exact Finset.sum_pos' (fun i _ => hterm i)
      ⟨n0, Finset.mem_univ n0, mul_pos hn0 (Real.exp_pos _)⟩
  constructor
  · intro n
    exact div_nonneg (hterm n) hsum.le
  · unfold currweights_of
    rw [← Finset.sum_div]
    exact div_self hsum.ne'

/-- C1 (witness): the amended statement instantiated at equal unit initial
weights on two frames. -/
theorem frameweights_nonneg_sum_one_wit :
    (∀ n, 0 ≤ (initState (R := 1) (N := 2) (fun _ _ => 0) (fun _ _ => 0)
        (fun _ => 0) ![1, 1] 0.35 2).iniweights n) ∧
    (∃ n, 0 < (initState (R := 1) (N := 2) (fun _ _ => 0) (fun _ _ => 0)
        (fun _ => 0) ![1, 1] 0.35 2).iniweights n) ∧
    ((∀ n, 0 ≤ (update_lnpi_and_weights (initState (R := 1) (N := 2) (fun _ _ => 0)
        (fun _ _ => 0) (fun _ => 0) ![1, 1] 0.35 2)).currweights n) ∧
      ∑ n, (update_lnpi_and_weights (initState (R := 1) (N := 2) (fun _ _ => 0)
        (fun _ _ => 0) (fun _ => 0) ![1, 1] 0.35 2)).currweights n = 1) := by
  have hnn : ∀ n, 0 ≤ (initState (R := 1) (N := 2) (fun _ _ => 0) (fun _ _ => 0)
      (fun _ => 0) ![1, 1] 0.35 2).iniweights n := by
    intro n
    fin_cases n <;> norm_num [initState]
  have hpos : ∃ n, 0 < (initState (R := 1) (N := 2) (fun _ _ => 0) (fun _ _ => 0)
      (fun _ => 0) ![1, 1] 0.35 2).iniweights n :=
    ⟨0, by norm_num [initState]⟩
  exact ⟨hnn, hpos, frameweights_nonneg_sum_one _ hnn hpos⟩

/-- C8: on the spec §8 example — contacts `[[1,2],[3,4]]`, no hydrogen bonds,
`Bc = 0.35`, `Bh = 2.0`, zero lambdas, unit initial weights — the forward
model gives `lnpi = [[0.35, 0.7], [1.05, 1.4]]`, a zero bias factor, and
normalised current frame weights `[0.5, 0.5]`. -/
theorem forward_model_example :
    (update_lnpi_and_weights exampleState).lnpi 0 0 = 0.35 ∧
    (update_lnpi_and_weights exampleState).lnpi 0 1 = 0.7 ∧
    (update_lnpi_and_weights exampleState).lnpi 1 0 = 1.05 ∧
    (update_lnpi_and_weights exampleState).lnpi 1 1 = 1.4 ∧
    biasfactor exampleState 0 = 0 ∧
    biasfactor exampleState 1 = 0 ∧
    (update_lnpi_and_weights exampleState).currweights 0 = 0.5 ∧
    (update_lnpi_and_weights exampleState).currweights 1 = 0.5 := by
  simp only [update_lnpi_eq, update_currweights_eq, exampleState, initState,
    lnpi_of, biasfactor, currweights_of, Fin.sum_univ_two,
    Matrix.cons_val_zero, Matrix.cons_val_one, Matrix.head_cons,
    Bool.false_eq_true, if_false]
  norm_num [Real.exp_zero]

/-- C9: from any fresh-setup state (iteration counter `0`), the first
modelled loop iteration records the per-residue weighted standard deviation
of `lnpi` and its mean, so `sigma_lnpi` and `ave_sigma_lnpi` are defined
before any later use. -/
theorem sigma_recorded_first_iteration (st : MEState R N) (h : st.curriter = 0) :
    (loop_iteration st).sigma_lnpi = some (sigma_of (loop_iteration st)) ∧
    (loop_iteration st).ave_sigma_lnpi =
      some ((∑ r, sigma_of (loop_iteration st) r) / R) := by
  unfold loop_iteration update_lnpi_and_weights
  simp only [h, zero_add, if_pos]
  exact ⟨rfl, rfl⟩

/-- C9 (witness): the statement instantiated at a concrete one-residue,
one-frame fresh state. -/
theorem sigma_recorded_first_iteration_wit :
    (initState (R := 1) (N := 1) (fun _ _ => 1) (fun _ _ => 0) (fun _ => 0)
        (fun _ => 1) 0.35 2).curriter = 0 ∧
    ((loop_iteration (initState (R := 1) (N := 1) (fun _ _ => 1) (fun _ _ => 0)
        (fun _ => 0) (fun _ => 1) 0.35 2)).sigma_lnpi =
      some (sigma_of (loop_iteration (initState (R := 1) (N := 1) (fun _ _ => 1)
        (fun _ _ => 0) (fun _ => 0) (fun _ => 1) 0.35 2))) ∧
    (loop_iteration (initState (R := 1) (N := 1) (fun _ _ => 1) (fun _ _ => 0)
        (fun _ => 0) (fun _ => 1) 0.35 2)).ave_sigma_lnpi =
      some ((∑ r, sigma_of (loop_iteration (initState (R := 1) (N := 1)
        (fun _ _ => 1) (fun _ _ => 0) (fun _ => 0) (fun _ => 1) 0.35 2)) r) /
          ((1 : ℕ) : ℝ))) :=
  ⟨rfl, sigma_recorded_first_iteration _ rfl⟩

/-- C4: a trial is accepted unconditionally when its MSE strictly improves;
otherwise it is accepted exactly when the uniform draw falls below
`move_prob = exp(-(trialVal - currVal))`, a genuine probability (at most 1)
in that branch; and on the spec §8 example, with `mc_refvar = 0.03`,
`n_segs = n_times = 1`, `trial_MSE = 0.05`, `curr_MSE = 0.02`, the acceptance
probability is `exp(-(1/2))`. -/
theorem mc_acceptance_rule (nsegs ntimes : ℕ) (trial curr refvar u : ℝ)
    (hr : 0 < refvar) :
    (trial < curr → mc_accept nsegs ntimes trial curr refvar u) ∧
    (¬ trial < curr →
      (mc_accept nsegs ntimes trial curr refvar u ↔
        u < mc_move_prob nsegs ntimes trial curr refvar)) ∧
    (¬ trial < curr → mc_move_prob nsegs ntimes trial curr refvar ≤ 1) ∧
    mc_move_prob 1 1 0.05 0.02 0.03 = Real.exp (-(1 / 2)) := by
  refine ⟨fun h => ?_, fun h => ?_, fun h => ?_, ?_⟩
  · unfold mc_accept
    rw [if_pos h]
    trivial
  · unfold mc_accept
    rw [if_neg h]
  · have hle : curr ≤ trial := le_of_not_lt h
    have h2 : (0 : ℝ) < 2 * refvar := by linarith
    have hmono : mc_acc_val nsegs ntimes curr refvar ≤
        mc_acc_val nsegs ntimes trial refvar := by
      unfold mc_acc_val
      exact (div_le_div_iff_of_pos_right h2).mpr
        (mul_le_mul_of_nonneg_left hle (by positivity))
    unfold mc_move_prob
    calc Real.exp (-(mc_acc_val nsegs ntimes trial refvar -
          mc_acc_val nsegs ntimes curr refvar)) ≤ Real.exp 0 :=
          Real.exp_le_exp.mpr (by linarith)
      _ = 1 := Real.exp_zero
  · unfold mc_move_prob mc_acc_val
    norm_num

/-- C4 (witness): the acceptance rule instantiated at the spec §8 example
values with the uniform draw `0.5`. -/
theorem mc_acceptance_rule_wit :
    (0 : ℝ) < 0.03 ∧
    (((0.05 : ℝ) < 0.02 → mc_accept 1 1 0.05 0.02 0.03 0.5) ∧
      (¬ (0.05 : ℝ) < 0.02 →
        (mc_accept 1 1 0.05 0.02 0.03 0.5 ↔
          (0.5 : ℝ) < mc_move_prob 1 1 0.05 0.02 0.03)) ∧
      (¬ (0.05 : ℝ) < 0.02 → mc_move_prob 1 1 0.05 0.02 0.03 ≤ 1) ∧
      mc_move_prob 1 1 0.05 0.02 0.03 = Real.exp (-(1 / 2))) :=
  ⟨by norm_num, mc_acceptance_rule 1 1 0.05 0.02 0.03 0.5 (by norm_num)⟩

/-- C5: whenever `generate_trial_betas` returns, it returns the pair
`(bc, bh)` it was given — the freshly drawn trial values are discarded by
`return bc, bh` — exhibited concretely at `bc = 0.35`, `bh = 2` with a draw
of `0.9`, whose accepted trial values `0.41` and `2.64` differ from the
returned coefficients. -/
theorem trial_betas_unchanged :
    (∀ (bc bh step bcr bhr : ℝ) (us : ℕ → ℝ) (fuel : ℕ),
      generate_trial_betas bc bh step bcr bhr us fuel = none ∨
        generate_trial_betas bc bh step bcr bhr us fuel = some (bc, bh)) ∧
    generate_trial_betas 0.35 2 0.1 1.5 16 (fun _ => 0.9) 1 = some (0.35, 2) ∧
    trial_beta 2 0.1 16 0.9 = 2.64 ∧
    trial_beta 0.35 0.1 1.5 0.9 = 0.41 ∧
    (2.64 : ℝ) ≠ 2 ∧ (0.41 : ℝ) ≠ 0.35 := by
  refine ⟨?_, ?_, by norm_num [trial_beta], by norm_num [trial_beta],
    by norm_num, by norm_num⟩
  · intro bc bh step bcr bhr us fuel
    unfold generate_trial_betas
    split
    · exact Or.inl rfl
    · split
      · exact Or.inl rfl
      · exact Or.inr rfl
  · norm_num [generate_trial_betas, first_nonneg_trial, trial_beta]

/-- C6: with equilibration off (`smoothing_rate = 1`), an accumulated sum of
`4` over `param_maxiters = 2` inner steps — whose inner-loop average is `2` —
produces a persistent coefficient of `1`, not the average `2`: the sums are
divided by `param_maxiters` a second time in the final blend. -/
theorem mc_average_double_division :
    mc_smoothing_rate (-1) 0 = 1 ∧
    mc_coeff_from_sums 0.35 4 (mc_smoothing_rate (-1) 0) 2 = 1 ∧
    spec_mc_coeff_from_sums 0.35 4 (mc_smoothing_rate (-1) 0) 2 = 2 ∧
    (1 : ℝ) ≠ 2 := by
  have hsr : mc_smoothing_rate (-1) 0 = 1 := by norm_num [mc_smoothing_rate]
  refine ⟨hsr, ?_, ?_, by norm_num⟩
  · rw [hsr]
    norm_num [mc_coeff_from_sums, mc_final_coeff, update_sampled_average]
  · rw [hsr]
    norm_num [spec_mc_coeff_from_sums, update_sampled_average]

/-- C2: on a fresh interpreter, `setup_restart` raises `NameError` — the
restart header interpolates the never-bound names `T`, `kT`, `tol` — so the
restore never completes; and the unpickled state is bound as module globals
(where `segfilters` does resolve afterwards), not in `self.runvalues`. -/
theorem setup_restart_name_error :
    setup_restart_py pyModuleGlobalsFresh = Except.error PyExc.nameError ∧
    resolveName ("T")
      [setupRestartLocals, pyModuleGlobalsFresh ++ restartPickleNames] = false ∧
    resolveName ("segfilters") [pyModuleGlobalsFresh ++ restartPickleNames] = true :=
  ⟨rfl, rfl, rfl⟩

/-- C7: calling `run()` with neither a restart file nor a run object, when
any of the mandatory keys `data_folders`, `kint_file`, `exp_file`, `times`
is absent from the supplied parameters, fails with `HDX_Error` during setup,
before any iteration of any loop body executes. -/
theorem missing_run_params_error {α : Type} (provided : List String)
    (loopBody : α → α) (iters : ℕ) (init : α)
    (h : (requiredRunKeys.all fun k => provided.contains k) = false) :
    run_model none none provided loopBody iters init =
      Except.error PyExc.hdxError := by
  unfold run_model run_setup_dispatch
  rw [h]
  rfl

/-- C7 (witness): `times` missing from otherwise complete parameters. -/
theorem missing_run_params_error_wit :
    ((requiredRunKeys.all fun k =>
        (["data_folders", "kint_file", "exp_file"] : List String).contains k) =
      false) ∧
    run_model none none ["data_folders", "kint_file", "exp_file"]
        (id : ℕ → ℕ) 3 0 = Except.error PyExc.hdxError :=
  ⟨rfl, missing_run_params_error _ _ _ _ rfl⟩

/-- C10: in a fresh run (module globals from a fresh import), the
reweighting branch of every inner MC sampling step fails with `NameError`:
the bare name `segfilters` read by `calc_lambdas_in_sampleloop` resolves in
no enclosing scope — though it would resolve after `setup_restart` has bound
the unpickled globals. -/
theorem sampling_lambdas_name_error (segf : Fin S → Fin R → Fin (T + 1) → Bool)
    (ave_lnpi segd mktf expdf : Fin S → Fin R → Fin (T + 1) → ℝ) :
    mc_inner_step_lambda_part true pyModuleGlobalsFresh segf ave_lnpi segd mktf
        expdf = Except.error PyExc.nameError ∧
    resolveName ("segfilters")
      [calcLambdasLocals, sampleMCLocals, pyModuleGlobalsFresh] = false ∧
    resolveName ("segfilters")
      [calcLambdasLocals, sampleMCLocals,
        pyModuleGlobalsFresh ++ restartPickleNames] = true :=
  ⟨rfl, rfl, rfl⟩

theorem osum_eq_sum_of_forall_isSome (l : List (Option ℝ)) (h : ∀ x ∈ l, x.isSome) :
    osum l = some ((l.map fun x => x.getD 0).sum) := by
  induction l with
  | nil => simp [osum]
  | cons a tl ih =>
    obtain ⟨v, hv⟩ := Option.isSome_iff_exists.mp (h a (List.mem_cons_self a tl))
    have htl := ih fun x hx => h x (List.mem_cons_of_mem a hx)
    rw [show osum (a :: tl) = a.bind fun x => (osum tl).map fun y => x + y from rfl,
      htl, hv]
    simp

theorem sum_map_flatMap {α β : Type} (l : List α) (f : α → List β) (g : β → ℝ) :
    ((l.flatMap f).map g).sum = (l.map fun a => ((f a).map g).sum).sum := by
  induction l with
  | nil => rfl
  | cons a tl ih => simp [List.flatMap_cons, List.map_append, List.sum_append, ih]

theorem nanmean_res_isSome (d : Fin S → Fin R → Fin T → Option ℝ) (s : Fin S)
    (t : Fin T) (h : ∃ r, (d s r t).isSome) : (nanmean_res d s t).isSome := by
  obtain ⟨r, hr⟩ := h
  obtain ⟨v, hv⟩ := Option.isSome_iff_exists.mp hr
  unfold nanmean_res
  have hmem : v ∈ (List.finRange R).filterMap fun r2 => d s r2 t :=
    List.mem_filterMap.mpr ⟨r, List.mem_finRange r, hv⟩
  have hne : ((List.finRange R).filterMap fun r2 => d s r2 t).length ≠ 0 := by
    intro h0
    rw [List.length_eq_zero] at h0
    rw [h0] at hmem
    exact (List.not_mem_nil v) hmem
  rw [if_neg hne]
  rfl

theorem residue_dfracs_isSome (segf : Fin S → Fin R → Fin T → Bool)
    (ave_lnpi mktf : Fin S → Fin R → Fin T → ℝ) (s : Fin S) (r : Fin R) (t : Fin T)
    (hf : segf s r t = true) (ha : ave_lnpi s r t ≠ 0) :
    (residue_dfracs segf ave_lnpi mktf s r t).isSome := by
  unfold residue_dfracs denom3 bfilter
  rw [hf]
  simp [ha]

theorem mse_terms_isSome (segf : Fin S → Fin R → Fin T → Bool)
    (segd : Fin S → Fin T → Option ℝ) (expdf : Fin S → Fin R → Fin T → ℝ)
    (h : ∀ s t, (segd s t).isSome) : ∀ x ∈ mse_terms segf segd expdf, x.isSome := by
  intro x hx
  unfold mse_terms at hx
  simp only [List.mem_flatMap, List.mem_map] at hx
  obtain ⟨s, _, r, _, t, _, rfl⟩ := hx
  obtain ⟨v, hv⟩ := Option.isSome_iff_exists.mp (h s t)
  rw [hv]
  rfl

theorem sum_mse_terms (segf : Fin S → Fin R → Fin T → Bool)
    (segd : Fin S → Fin T → Option ℝ) (expdf : Fin S → Fin R → Fin T → ℝ) :
    ((mse_terms segf segd expdf).map fun x => x.getD 0).sum =
      ∑ s, ∑ r, ∑ t,
        (((segd s t).map fun m =>
          (m * bfilter (segf s r t) - expdf s r t) ^ 2).getD 0) := by
  unfold mse_terms
  rw [sum_map_flatMap, Fin.sum_univ_def]
  congr 1
  apply List.map_congr_left
  intro s _
  rw [sum_map_flatMap, Fin.sum_univ_def]
  congr 1
  apply List.map_congr_left
  intro r _
  rw [List.map_map, Fin.sum_univ_def]
  rfl

/-- C3 (counterexample): with two segments over one residue and one time,
the second segment entirely filtered out, the computed MSE is NaN (`none`) —
the undefined segment mean enters the error sum through `NaN * 0 = NaN` —
while the sum of squared filtered deviations divided by the number of valid
datapoints (here 1) is the well-defined value 0.  So a filtered-out entry can
influence the MSE, and the MSE does not always equal the claimed quotient. -/
theorem dfracs_mse_nan_cex :
    update_dfracs_mse (S := 2) (R := 1) (T := 1)
        ![fun _ _ => true, fun _ _ => false] (fun _ _ _ => 1) (fun _ _ _ => 0)
        (fun _ _ _ => 0) = none ∧
    spec_MSE (S := 2) (R := 1) (T := 1)
        ![fun _ _ => true, fun _ _ => false] (fun _ _ _ => 1) (fun _ _ _ => 0)
        (fun _ _ _ => 0) = 0 ∧
    n_datapoints (S := 2) (R := 1) (T := 1)
        ![fun _ _ => true, fun _ _ => false] = 1 := by
  refine ⟨?_, ?_, by decide⟩
  · simp [update_dfracs_mse, curr_MSE, mse_terms, osum, nanmean_res,
      residue_dfracs, denom3, bfilter, minuskt_filtered, exp_dfrac_filtered,
      List.finRange_succ, List.finRange_zero, Matrix.cons_val_zero,
      Matrix.cons_val_one, Matrix.head_cons, Matrix.cons_val_succ]
  · simp [spec_MSE, nanmean_res, residue_dfracs, denom3, bfilter,
      minuskt_filtered, exp_dfrac_filtered, n_datapoints,
      Fin.sum_univ_two, Fin.sum_univ_one, List.finRange_succ, List.finRange_zero,
      Matrix.cons_val_zero, Matrix.cons_val_one, Matrix.head_cons,
      Matrix.cons_val_succ, Real.exp_zero]

/-- C3 (amended): `update_dfracs_and_mse` is total (no exception: masked
entries become NaN instead); entries whose segment filter is off are marked
undefined rather than computed; the raw values at filtered-out cells never
influence the result; and — provided every (segment, time) cell keeps at
least one residue with the filter set and a nonzero averaged protection
factor — the MSE equals the sum of squared filtered deviations divided by
the count of valid datapoints.  (When some cell has no such residue its
segment mean is NaN and the MSE is NaN, as the counterexample shows.) -/
theorem dfracs_mse_amended (segf : Fin S → Fin R → Fin T → Bool)
    (ave_lnpi minuskt exp_dfrac : Fin S → Fin R → Fin T → ℝ)
    (hcov : ∀ s t, ∃ r, segf s r t = true ∧ ave_lnpi s r t ≠ 0) :
    (∀ s r t, segf s r t = false →
      residue_dfracs segf ave_lnpi (minuskt_filtered segf minuskt) s r t = none) ∧
    (∀ minuskt2 exp_dfrac2,
      (∀ s r t, segf s r t = true → minuskt2 s r t = minuskt s r t) →
      (∀ s r t, segf s r t = true → exp_dfrac2 s r t = exp_dfrac s r t) →
      update_dfracs_mse segf ave_lnpi minuskt2 exp_dfrac2 =
        update_dfracs_mse segf ave_lnpi minuskt exp_dfrac) ∧
    update_dfracs_mse segf ave_lnpi minuskt exp_dfrac =
      some (spec_MSE segf ave_lnpi minuskt exp_dfrac) := by
  refine ⟨?_, ?_, ?_⟩
  · intro s r t hf
    unfold residue_dfracs denom3 bfilter
    rw [hf]
    simp
  · intro minuskt2 exp_dfrac2 h1 h2
    have hm : minuskt_filtered segf minuskt2 = minuskt_filtered segf minuskt := by
      funext s r t
      unfold minuskt_filtered bfilter
      cases hf : segf s r t
      · simp
      · rw [h1 s r t hf]
    have he : exp_dfrac_filtered segf exp_dfrac2 =
        exp_dfrac_filtered segf exp_dfrac := by
      funext s r t
      unfold exp_dfrac_filtered bfilter
      cases hf : segf s r t
      · simp
      · rw [h2 s r t hf]
    unfold update_dfracs_mse
    rw [hm, he]
  · have hsome : ∀ s t,
        (nanmean_res (residue_dfracs segf ave_lnpi
          (minuskt_filtered segf minuskt)) s t).isSome := by
      intro s t
      obtain ⟨r, hf, ha⟩ := hcov s t
      exact nanmean_res_isSome _ s t
        ⟨r, residue_dfracs_isSome segf ave_lnpi _ s r t hf ha⟩
    have hterms := mse_terms_isSome segf _ (exp_dfrac_filtered segf exp_dfrac) hsome
    unfold update_dfracs_mse curr_MSE
    rw [osum_eq_sum_of_forall_isSome _ hterms]
    simp only [Option.map_some']
    unfold spec_MSE
    congr 1
    rw [sum_mse_terms]
    congr 1
    apply Finset.sum_congr rfl
    intro s _
    apply Finset.sum_congr rfl
    intro r _
    apply Finset.sum_congr rfl
    intro t _
    obtain ⟨m, hm⟩ := Option.isSome_iff_exists.mp (hsome s t)
    rw [hm]
    simp only [Option.map_some', Option.getD_some]
    unfold exp_dfrac_filtered bfilter
    cases hf : segf s r t
    · simp
    · simp

/-- C3 (witness): the amended statement instantiated on a single fully
filtered cell with unit averaged protection factor. -/
theorem dfracs_mse_amended_wit :
    (∀ (s : Fin 1) (t : Fin 1), ∃ r : Fin 1,
      witSegf s r t = true ∧ witAve s r t ≠ 0) ∧
    ((∀ s r t, witSegf s r t = false →
      residue_dfracs witSegf witAve (minuskt_filtered witSegf witMkt) s r t =
        none) ∧
    (∀ minuskt2 exp_dfrac2,
      (∀ s r t, witSegf s r t = true → minuskt2 s r t = witMkt s r t) →
      (∀ s r t, witSegf s r t = true → exp_dfrac2 s r t = witExp s r t) →
      update_dfracs_mse witSegf witAve minuskt2 exp_dfrac2 =
        update_dfracs_mse witSegf witAve witMkt witExp) ∧
    update_dfracs_mse witSegf witAve witMkt witExp =
      some (spec_MSE witSegf witAve witMkt witExp)) :=
  ⟨fun _ _ => ⟨0, rfl, one_ne_zero⟩,
    dfracs_mse_amended _ _ _ _ fun _ _ => ⟨0, rfl, one_ne_zero⟩⟩

end

end HDXer
